import Mathlib

/-!
Verification of the WebActionCapture repository (capture.py, save.py,
parser_mac.py, video.py, config.py) against its specification.

Python values are embedded shallowly: Python `str` as `List Char` (one
element per code point, matching Python length/slicing semantics), Python
`float` as `ℚ` (exact arithmetic; the spec's "within floating-point
tolerance" clauses become exact equalities), JSON scalars as the inductive
`JsonVal`.  Stateful queue code becomes explicit state passing.
-/

namespace WebActionCapture

/-- A Python string, one list element per code point. -/
abbrev PyStr := List Char

/-- A JSON value as decoded by `json.loads`.  Arrays and objects are
collapsed into one `composite` constructor: every source path the claims
touch treats them uniformly (they are not numbers and not strings). -/
inductive JsonVal where
  | null : JsonVal
  | bool (b : Bool) : JsonVal
  | num (q : ℚ) : JsonVal
  | str (s : PyStr) : JsonVal
  | composite : JsonVal
deriving DecidableEq

/-- A decoded JSONL event record: a Python dict, embedded as an
association list from key to value. -/
abbrev Ev := List (PyStr × JsonVal)

/-- The dict key "ts". -/
def tsKey : PyStr := "ts".toList

/-- The dict key "type". -/
def typeKey : PyStr := "type".toList

/-- The dict key "value". -/
def valueKey : PyStr := "value".toList

/-- Python dict assignment `d[k] = v`: replace the value at an existing
key, else append the new binding. -/
def dictSet (ev : Ev) (k : PyStr) (v : JsonVal) : Ev :=
  if (ev.lookup k).isSome then
    ev.map (fun p => if p.1 = k then (k, v) else p)
  else ev ++ [(k, v)]

/-! ## Numeric string parsing and digit scanning

Used both by `sanitize_ts` (Python's `float(str)`) and by the
`start:` marker scanner of `parser_mac.py`. -/

/-- Split a leading run of ASCII digits off a character list. -/
def takeDigits : List Char → List Char × List Char
  | [] => ([], [])
  | c :: rest =>
    if c.isDigit then
      let p := takeDigits rest
      (c :: p.1, p.2)
    else ([], c :: rest)

/-- Value of a digit string read in base 10. -/
def digitsToNat (ds : List Char) : ℕ :=
  ds.foldl (fun a c => 10 * a + (c.toNat - ('0').toNat)) 0

/-- Python's whitespace class for ASCII text (`\s` likewise):
space, tab, newline, carriage return, vertical tab, form feed. -/
def isPySpace (c : Char) : Bool :=
  c = ' ' || c = '\t' || c = '\n' || c = '\r' || c = '\x0b' || c = '\x0c'

/-- Parse an unsigned decimal literal `digits`, `digits.digits`,
`digits.` or `.digits`, returning its value and the remaining input. -/
def parseUnsignedDecimal (l : PyStr) : Option (ℚ × PyStr) :=
  let p := takeDigits l
  match p.2 with
  | '.' :: r2 =>
    let f := takeDigits r2
    if p.1 = [] ∧ f.1 = [] then none
    else
      some ((digitsToNat p.1 : ℚ) + (digitsToNat f.1 : ℚ) / (10 : ℚ) ^ f.1.length, f.2)
  | r => if p.1 = [] then none else some ((digitsToNat p.1 : ℚ), r)

/-- Finish parsing an exponent suffix (everything after the `e`/`E`). -/
def finishExponent (sign : ℚ) (v : ℚ) (r2 : PyStr) : Option ℚ :=
  let sp : ℤ × PyStr :=
    match r2 with
    | '+' :: r => (1, r)
    | '-' :: r => (-1, r)
    | r => (1, r)
  let ds := takeDigits sp.2
  if ds.1 = [] ∨ ds.2 ≠ [] then none
  else some (sign * v * (10 : ℚ) ^ (sp.1 * (digitsToNat ds.1 : ℤ)))

/-- Python's `float(s)` on a string: strip surrounding whitespace, then an
optional sign and a decimal literal with optional exponent.  Non-finite
literals (`inf`, `nan`) and digit-group underscores have no `ℚ`
counterpart and are not modelled; no claim exercises them. -/
def pyParseFloat (s : PyStr) : Option ℚ :=
  let t := ((s.dropWhile isPySpace).reverse.dropWhile isPySpace).reverse
  let st : ℚ × PyStr :=
    match t with
    | '+' :: r => (1, r)
    | '-' :: r => (-1, r)
    | r => (1, r)
  match parseUnsignedDecimal st.2 with
  | none => none
  | some (v, r) =>
    match r with
    | [] => some (st.1 * v)
    | 'e' :: r2 => finishExponent st.1 v r2
    | 'E' :: r2 => finishExponent st.1 v r2
    | _ => none

/-- `parser_mac.sanitize_ts`: `None` stays `None`; `int`/`float` (and
`bool`, a Python `int` subtype) convert exactly; strings go through
`float(v)`; any other value makes `float(v)` raise, caught to `None`. -/
def sanitize_ts (v : Option JsonVal) : Option ℚ :=
  match v with
  | none => none
  | some JsonVal.null => none
  | some (JsonVal.bool b) => some (if b then 1 else 0)
  | some (JsonVal.num q) => some q
  | some (JsonVal.str s) => pyParseFloat s
  | some JsonVal.composite => none

/-! ## save.py — bounded non-blocking sinks -/

/-- The state of a `queue.Queue(maxsize=n)` with `0 < n` as constructed in
`save.py` (both sinks use `maxsize=10000`). -/
structure BQueue (α : Type) where
  items : List α
  maxsize : ℕ
deriving DecidableEq

/-- `queue.Queue.put_nowait`: enqueue, or raise `queue.Full` (the `error`
branch) when the queue already holds `maxsize` items. -/
def BQueue.put_nowait (q : BQueue α) (x : α) : Except Unit (BQueue α) :=
  if q.items.length < q.maxsize then Except.ok ⟨q.items ++ [x], q.maxsize⟩
  else Except.error ()

/-- The shared body of `LogPump.put` and `JsonlWriter.put`: try
`put_nowait`, and on `queue.Full` drop the item silently (`pass`), so the
call always returns normally to the producer. -/
def BQueue.put (q : BQueue α) (x : α) : BQueue α :=
  match q.put_nowait x with
  | Except.ok q2 => q2
  | Except.error _ => q

/-- `save.LogPump`: background printer; its queue holds output lines. -/
structure LogPump where
  q : BQueue PyStr
deriving DecidableEq

/-- A fresh `LogPump()` (queue capacity 10000). -/
def LogPump.init : LogPump := ⟨⟨[], 10000⟩⟩

/-- `LogPump.put`. -/
def LogPump.put (p : LogPump) (line : PyStr) : LogPump := ⟨p.q.put line⟩

/-- `save.JsonlWriter`: background JSONL appender; its queue holds event
dicts. -/
structure JsonlWriter where
  out_dir : PyStr
  filename : PyStr
  q : BQueue Ev
deriving DecidableEq

/-- A fresh `JsonlWriter(out_dir, filename)` (queue capacity 10000). -/
def JsonlWriter.init (d f : PyStr) : JsonlWriter := ⟨d, f, ⟨[], 10000⟩⟩

/-- `JsonlWriter.put`. -/
def JsonlWriter.put (w : JsonlWriter) (obj : Ev) : JsonlWriter :=
  { w with q := w.q.put obj }

/-! ## capture.py — event normalization and redaction -/

/-- Round half to even at integer precision (Python's `round` tie rule on
exact values). -/
def roundHalfEven (q : ℚ) : ℤ :=
  if q - (⌊q⌋ : ℚ) < 1 / 2 then ⌊q⌋
  else if 1 / 2 < q - (⌊q⌋ : ℚ) then ⌊q⌋ + 1
  else if ⌊q⌋ % 2 = 0 then ⌊q⌋ else ⌊q⌋ + 1

/-- Python's `round(x, 6)` on the exact value: round to six decimal
places, ties to even. -/
def pyRound6 (q : ℚ) : ℚ := (roundHalfEven (q * 1000000) : ℚ) / 1000000

/-- Lines 39-43 of `capture.Recorder._emit_event`: shallow-copy the event
and, when its `ts` is numeric and exceeds `1e10` (an epoch-millisecond
reading), replace it by `round(ts / 1000.0, 6)`. -/
def emit_event_normalize (obj : Ev) : Ev :=
  match obj.lookup tsKey with
  | some (JsonVal.num q) =>
    if 10000000000 < q then dictSet obj tsKey (JsonVal.num (pyRound6 (q / 1000)))
    else obj
  | _ => obj

/-- `capture.Recorder._emit_event`: the normalized record is enqueued to
the JSONL sink (first component) and, serialized, as the payload of the
`[BROWSER_LOG]` stdout line for the pump (second component; the line's
textual serialization is injective on the record and not modelled
further). -/
def Recorder_emit_event (obj : Ev) : Ev × Ev :=
  (emit_event_normalize obj, emit_event_normalize obj)

/-- Lines 75-79 of `capture.Recorder._wire`: a typed-text value longer
than 120 code points is replaced by its first 117 code points followed by
the one-character ellipsis marker. -/
def redact_value (v : PyStr) : PyStr :=
  if v.length ≤ 120 then v else v.take 117 ++ [Char.ofNat 0x2026]

/-- The redaction guard of `capture.Recorder._wire`: only events whose
`type` is the string `type` or `type_commit` and whose `value` is a
string are redacted; everything else passes through unchanged. -/
def wire_redact (obj : Ev) : Ev :=
  match obj.lookup typeKey, obj.lookup valueKey with
  | some (JsonVal.str t), some (JsonVal.str v) =>
    if t = "type".toList ∨ t = "type_commit".toList then
      dictSet obj valueKey (JsonVal.str (redact_value v))
    else obj
  | _, _ => obj

/-! ## parser_mac.py — anchor extraction -/

/-- Python's `\w` word-character class on the ASCII text of an encoder
log: letters, digits and underscore. -/
def isWordChar (c : Char) : Bool := c.isAlpha || c.isDigit || c = '_'

/-- Match `START_RE` minus its leading `\b` at the head of the input:
the literal `start:`, then `\s*`, then `[0-9]+(?:\.[0-9]+)?`.  Returns
the integer and fraction digit strings of the captured group and the
input after the match (the fraction is empty when the optional group did
not participate). -/
def matchStartMarker (l : List Char) :
    Option ((List Char × List Char) × List Char) :=
  match l with
  | 's' :: 't' :: 'a' :: 'r' :: 't' :: ':' :: rest =>
    let afterSpace := rest.dropWhile isPySpace
    let p := takeDigits afterSpace
    if p.1 = [] then none
    else
      match p.2 with
      | '.' :: r2 =>
        let f := takeDigits r2
        if f.1 = [] then some ((p.1, []), p.2)
        else some ((p.1, f.1), f.2)
      | r => some ((p.1, []), r)
  | _ => none

/-- Fuelled left-to-right scan of `START_RE.finditer`: at each position
whose preceding character is not a word character (the `\b` boundary — at
a match the next character is `s`), try the marker; on success continue
after the match (whose final character is a digit, hence a word
character), otherwise advance one character.  Each step consumes at least
one character, so fuel `= length` never runs out. -/
def findMarkerDigitsFuel : ℕ → List Char → Bool → List (List Char × List Char)
  | 0, _, _ => []
  | fuel + 1, l, prevWord =>
    match l with
    | [] => []
    | c :: rest =>
      if prevWord then findMarkerDigitsFuel fuel rest (isWordChar c)
      else
        match matchStartMarker (c :: rest) with
        | some (ds, r) => ds :: findMarkerDigitsFuel fuel r true
        | none => findMarkerDigitsFuel fuel rest (isWordChar c)

/-- Value of `float(g)` where `g` is a captured `[0-9]+(?:\.[0-9]+)?`
group split into its integer and fraction digit strings. -/
def ratOfDigits (ds : List Char × List Char) : ℚ :=
  (digitsToNat ds.1 : ℚ) + (digitsToNat ds.2 : ℚ) / (10 : ℚ) ^ ds.2.length

/-- All `START_RE` match values of an encoder log, in text order. -/
def findMarkers (text : List Char) : List ℚ :=
  (findMarkerDigitsFuel text.length text false).map ratOfDigits

/-- The `prefer` policy of `extract_ffmpeg_start_ts`. -/
inductive Prefer where
  | first : Prefer
  | last : Prefer
deriving DecidableEq

/-- `parser_mac.extract_ffmpeg_start_ts`: the first or last `start:`
marker value of the log text, or `None` when there is none. -/
def extract_ffmpeg_start_ts (text : List Char) (prefer : Prefer) : Option ℚ :=
  match findMarkers text, prefer with
  | [], _ => none
  | q :: _, Prefer.first => some q
  | q :: qs, Prefer.last => some ((q :: qs).getLast (List.cons_ne_nil q qs))

/-- `parser_mac.host_seconds_to_epoch`.  The source samples
`time.time()` and `host_time_seconds_now()` at query time; following the
spec's design note they are passed in as the `wall_now` and `host_now`
clock samples. -/
def host_seconds_to_epoch (wall_now host_now host_secs : ℚ) : ℚ :=
  (wall_now - host_now) + host_secs

/-! ## parser_mac.py — frame reconciliation -/

/-- Python's `int()` truncation toward zero on an exact value. -/
def pyInt (q : ℚ) : ℤ := if 0 ≤ q then ⌊q⌋ else ⌈q⌉

/-- The reconciliation parameters of `parser_mac.main` (anchor held
separately). -/
structure RecParams where
  include_types : Option (List PyStr)
  offset_ms : ℚ
  min_gap_ms : ℚ
  image_ext : PyStr
deriving DecidableEq

/-- `min_gap_s = args.min_gap_ms / 1000.0 if args.min_gap_ms > 0 else 0.0`. -/
def RecParams.min_gap_s (P : RecParams) : ℚ :=
  if 0 < P.min_gap_ms then P.min_gap_ms / 1000 else 0

/-- `offset_s = args.offset_ms / 1000.0`. -/
def RecParams.offset_s (P : RecParams) : ℚ := P.offset_ms / 1000

/-- `include_types = set(args.include_types) if args.include_types else
None`: an empty `--include-types` list is falsy and disables filtering. -/
def includeTypesOf (arg : Option (List PyStr)) : Option (List PyStr) :=
  match arg with
  | some (s :: rest) => some (s :: rest)
  | _ => none

/-- `ev.get("type", "event")`: the `type` value when the key is present
(whatever JSON value it holds), else the string `event`. -/
def evTypeOf (ev : Ev) : JsonVal :=
  (ev.lookup typeKey).getD (JsonVal.str ("event".toList))

/-- The test `ev_type not in include_types` (negated): with no include
set every event passes; a Python set of CLI strings contains a value only
if it is an equal string. -/
def typePasses (inc : Option (List PyStr)) (t : JsonVal) : Bool :=
  match inc with
  | none => true
  | some l =>
    match t with
    | JsonVal.str s => l.contains s
    | _ => false

/-- The skip test `rel_t - last_rel < min_gap_s`; `none` stands for the
initial `last_rel = -math.inf`, for which the test is false. -/
def gapSkip (last_rel : Option ℚ) (rel_t min_gap_s : ℚ) : Bool :=
  match last_rel with
  | none => false
  | some lr => decide (rel_t - lr < min_gap_s)

/-- The components of the frame file name
`f"{counter:06d}_{ev_type}_{int(ts*1000)}.{image_ext}"`; the format is
injective on them. -/
structure FrameName where
  seq : ℕ
  ev_type : JsonVal
  ts_ms : ℤ
  ext : PyStr
deriving DecidableEq

/-- One record of the augmented output log: the original event dict (the
written record additionally carries `frame_path`, determined by `frame`),
the video offset `rel_t` at which `extract_frame` was invoked, and the
frame-name components. -/
structure OutEv where
  ev : Ev
  rel_t : ℚ
  frame : FrameName
deriving DecidableEq

/-- The event loop of `parser_mac.main` (lines 175-210), processing the
decoded event records in file order with the running `counter` and
`last_rel` state.  `extractOk` abstracts whether the external
`extract_frame` invocation succeeds for a given event and offset; on
failure the event is skipped and the state is unchanged. -/
def reconcileLoop (anchor : ℚ) (P : RecParams) (extractOk : Ev → ℚ → Bool) :
    List Ev → ℕ → Option ℚ → List OutEv
  | [], _, _ => []
  | ev :: rest, counter, last_rel =>
    match sanitize_ts (ev.lookup tsKey) with
    | none => reconcileLoop anchor P extractOk rest counter last_rel
    | some ts =>
      if ts < anchor then reconcileLoop anchor P extractOk rest counter last_rel
      else if typePasses P.include_types (evTypeOf ev) = false then
        reconcileLoop anchor P extractOk rest counter last_rel
      else if (ts - anchor) + P.offset_s < 0 then
        reconcileLoop anchor P extractOk rest counter last_rel
      else if gapSkip last_rel ((ts - anchor) + P.offset_s) P.min_gap_s then
        reconcileLoop anchor P extractOk rest counter last_rel
      else if extractOk ev ((ts - anchor) + P.offset_s) then
        { ev := ev, rel_t := (ts - anchor) + P.offset_s,
          frame := ⟨counter, evTypeOf ev, pyInt (ts * 1000), P.image_ext⟩ } ::
          reconcileLoop anchor P extractOk rest (counter + 1)
            (some ((ts - anchor) + P.offset_s))
      else reconcileLoop anchor P extractOk rest counter last_rel

/-- The error message of `parser_mac.main` when no `start:` marker is
found. -/
def noStartMsg : PyStr := "No start: timestamp found in the ffmpeg log".toList

/-- The reconciliation pass of `parser_mac.main` after file checks:
extract the encoder start marker (aborting when absent, before the output
file receives any record), convert it to the epoch anchor, and run the
event loop from `counter = 1`, `last_rel = -inf`. -/
def mainReconcile (ffmpeg_log : List Char) (prefer : Prefer)
    (wall_now host_now : ℚ) (P : RecParams) (extractOk : Ev → ℚ → Bool)
    (events : List Ev) : Except PyStr (List OutEv) :=
  match extract_ffmpeg_start_ts ffmpeg_log prefer with
  | none => Except.error noStartMsg
  | some host_start =>
    Except.ok (reconcileLoop (host_seconds_to_epoch wall_now host_now host_start)
      P extractOk events 1 none)

/-! ## Concrete fixtures used by scenario conjuncts and witnesses -/

/-- An encoder log line containing `start: 12.345000` exactly once (the
spec's anchor scenario). -/
def sampleLog : List Char :=
  ("Output #0, mp4, to out.mp4: Duration: N/A, start: 12.345000, bitrate: N/A").toList

/-- An encoder log with no `start:` marker. -/
def noMarkerLog : List Char :=
  ("encoder crashed before initializing, no marker written").toList

/-- Reconciliation parameters with no type filter, zero offset and zero
minimum gap. -/
def P0 : RecParams := ⟨none, 0, 0, ("jpg").toList⟩

/-- A single click-free event with numeric `ts = 1`. -/
def ev0 : Ev := [(tsKey, JsonVal.num 1)]

/-- The output record that reconciling `[ev0]` against anchor 0 with
`P0` produces. -/
def out0 : OutEv :=
  { ev := ev0, rel_t := 1,
    frame := ⟨1, JsonVal.str (("event").toList), 1000, ("jpg").toList⟩ }

/-- A frame-extraction oracle that always succeeds. -/
def okAll : Ev → ℚ → Bool := fun _ _ => true

/-- A frame-extraction oracle that always fails. -/
def okFail : Ev → ℚ → Bool := fun _ _ => false

/-- An event whose epoch-millisecond `ts` has a fractional part that six
decimal places cannot represent after division by 1000. -/
def c5ev : Ev := [(tsKey, JsonVal.num (20000000000 + 1 / 512))]

/-- A 121-character typed-text value. -/
def longValue : PyStr := List.replicate 121 'a'

/-- A typed-text event carrying `longValue`. -/
def typedEv : Ev :=
  [(typeKey, JsonVal.str (("type").toList)), (valueKey, JsonVal.str longValue)]

/-! ## Helper lemmas -/

/-- Updating an existing key in a dict (the map half of `dictSet`) makes
the key read back the new value. -/
theorem lookup_map_set (k : PyStr) (v : JsonVal) :
    ∀ l : Ev, (l.lookup k).isSome →
      (l.map (fun p => if p.1 = k then (k, v) else p)).lookup k = some v := by
  intro l
  induction l with
  | nil => intro h; simp [List.lookup] at h
  | cons hd tl ih =>
    obtain ⟨k1, v1⟩ := hd
    intro h
    by_cases hk : k1 = k
    · subst hk
      rw [List.map_cons, if_pos (rfl : (k1, v1).1 = k1)]
      simp [List.lookup]
    · have hne : (k == k1) = false := by
        simp only [beq_eq_false_iff_ne, ne_eq]
        exact fun hkk => hk hkk.symm
      simp only [List.map_cons, if_neg hk]
      simp only [List.lookup, hne] at h ⊢
      exact ih h

/-- `dictSet` at a present key makes the key read back the new value. -/
theorem dictSet_lookup (ev : Ev) (k : PyStr) (v : JsonVal)
    (h : (ev.lookup k).isSome) : (dictSet ev k v).lookup k = some v := by
  unfold dictSet
  rw [if_pos h]
  exact lookup_map_set k v ev h

/-- The effective minimum gap in seconds is never negative. -/
theorem min_gap_s_nonneg (P : RecParams) : 0 ≤ P.min_gap_s := by
  unfold RecParams.min_gap_s
  split
  · next h => exact le_of_lt (by positivity)
  · exact le_refl 0

/-- `roundHalfEven` fixes integers. -/
theorem roundHalfEven_intCast (n : ℤ) : roundHalfEven (n : ℚ) = n := by
  unfold roundHalfEven
  norm_num [Int.floor_intCast]

/-- `pyInt` fixes integers. -/
theorem pyInt_intCast (n : ℤ) : pyInt (n : ℚ) = n := by
  unfold pyInt
  split
  · exact Int.floor_intCast n
  · exact Int.ceil_intCast n

/-- One step of the reconciliation loop either skips the head event with
the counter and last-retained tracker untouched, or retains it: all the
guards pass and the output gains one record built from the current
counter, with the recursion continuing at `counter + 1` and the new
relative time. -/
theorem reconcileLoop_cons_cases (anchor : ℚ) (P : RecParams)
    (ok : Ev → ℚ → Bool) (ev : Ev) (rest : List Ev) (c : ℕ) (lr : Option ℚ) :
    reconcileLoop anchor P ok (ev :: rest) c lr
        = reconcileLoop anchor P ok rest c lr ∨
    ∃ ts, sanitize_ts (ev.lookup tsKey) = some ts ∧ ¬ ts < anchor ∧
      typePasses P.include_types (evTypeOf ev) = true ∧
      ¬ (ts - anchor) + P.offset_s < 0 ∧
      gapSkip lr ((ts - anchor) + P.offset_s) P.min_gap_s = false ∧
      ok ev ((ts - anchor) + P.offset_s) = true ∧
      reconcileLoop anchor P ok (ev :: rest) c lr
        = { ev := ev, rel_t := (ts - anchor) + P.offset_s,
            frame := ⟨c, evTypeOf ev, pyInt (ts * 1000), P.image_ext⟩ } ::
            reconcileLoop anchor P ok rest (c + 1)
              (some ((ts - anchor) + P.offset_s)) := by
  cases h1 : sanitize_ts (ev.lookup tsKey) with
  | none => exact Or.inl (by simp only [reconcileLoop, h1])
  | some ts =>
    by_cases h2 : ts < anchor
    · exact Or.inl (by simp only [reconcileLoop, h1, if_pos h2])
    · cases h3 : typePasses P.include_types (evTypeOf ev) with
      | false =>
        exact Or.inl (by simp only [reconcileLoop, h1, if_neg h2, if_pos h3])
      | true =>
        have h3' : ¬ typePasses P.include_types (evTypeOf ev) = false := by
          simp [h3]
        by_cases h4 : (ts - anchor) + P.offset_s < 0
        · exact Or.inl (by
            simp only [reconcileLoop, h1, if_neg h2, if_neg h3', if_pos h4])
        · cases h5 : gapSkip lr ((ts - anchor) + P.offset_s) P.min_gap_s with
          | true =>
            exact Or.inl (by
              simp only [reconcileLoop, h1, if_neg h2, if_neg h3', if_neg h4,
                if_pos h5])
          | false =>
            have h5' : ¬ gapSkip lr ((ts - anchor) + P.offset_s) P.min_gap_s
                = true := by simp [h5]
            cases h6 : ok ev ((ts - anchor) + P.offset_s) with
            | false =>
              have h6' : ¬ ok ev ((ts - anchor) + P.offset_s) = true := by
                simp [h6]
              exact Or.inl (by
                simp only [reconcileLoop, h1, if_neg h2, if_neg h3', if_neg h4,
                  if_neg h5', if_neg h6'])
            | true =>
              refine Or.inr ⟨ts, rfl, h2, rfl, h4, h5, h6, ?_⟩
              simp only [reconcileLoop, h1, if_neg h2, if_neg h3', if_neg h4,
                if_neg h5', if_pos h6]

/-- Every record the loop emits passed all the retention guards. -/
theorem reconcileLoop_mem_conditions (anchor : ℚ) (P : RecParams)
    (ok : Ev → ℚ → Bool) :
    ∀ (evs : List Ev) (c : ℕ) (lr : Option ℚ) (o : OutEv),
      o ∈ reconcileLoop anchor P ok evs c lr →
      ∃ ts, sanitize_ts (o.ev.lookup tsKey) = some ts ∧ anchor ≤ ts ∧
        typePasses P.include_types (evTypeOf o.ev) = true ∧
        o.rel_t = (ts - anchor) + P.offset_s ∧ 0 ≤ o.rel_t ∧
        ok o.ev o.rel_t = true := by
  intro evs
  induction evs with
  | nil => intro c lr o ho; simp [reconcileLoop] at ho
  | cons ev rest ih =>
    intro c lr o ho
    rcases reconcileLoop_cons_cases anchor P ok ev rest c lr with
      heq | ⟨ts, h1, h2, h3, h4, h5, h6, heq⟩
    · rw [heq] at ho
      exact ih c lr o ho
    · rw [heq] at ho
      rcases List.mem_cons.mp ho with rfl | hmem
      · exact ⟨ts, h1, not_lt.mp h2, h3, rfl, not_lt.mp h4, h6⟩
      · exact ih _ _ o hmem

/-- Starting from a retained relative time `r`, every later output of
the loop sits at least the minimum gap above `r`. -/
theorem reconcileLoop_rel_lb (anchor : ℚ) (P : RecParams)
    (ok : Ev → ℚ → Bool) :
    ∀ (evs : List Ev) (c : ℕ) (r : ℚ) (o : OutEv),
      o ∈ reconcileLoop anchor P ok evs c (some r) →
      P.min_gap_s ≤ o.rel_t - r := by
  intro evs
  induction evs with
  | nil => intro c r o ho; simp [reconcileLoop] at ho
  | cons ev rest ih =>
    intro c r o ho
    rcases reconcileLoop_cons_cases anchor P ok ev rest c (some r) with
      heq | ⟨ts, h1, h2, h3, h4, h5, h6, heq⟩
    · rw [heq] at ho
      exact ih c r o ho
    · rw [heq] at ho
      have hhead : P.min_gap_s ≤ ((ts - anchor) + P.offset_s) - r := by
        have := of_decide_eq_false h5
        linarith [not_lt.mp this]
      rcases List.mem_cons.mp ho with rfl | hmem
      · exact hhead
      · have htail := ih (c + 1) ((ts - anchor) + P.offset_s) o hmem
        have hnn := min_gap_s_nonneg P
        linarith

/-- The loop's output satisfies the minimum-gap chain invariant from any
starting state. -/
theorem reconcileLoop_chain_gap (anchor : ℚ) (P : RecParams)
    (ok : Ev → ℚ → Bool) :
    ∀ (evs : List Ev) (c : ℕ) (lr : Option ℚ),
      List.Chain' (fun a b : OutEv => P.min_gap_s ≤ b.rel_t - a.rel_t)
        (reconcileLoop anchor P ok evs c lr) := by
  intro evs
  induction evs with
  | nil => intro c lr; simp [reconcileLoop]
  | cons ev rest ih =>
    intro c lr
    rcases reconcileLoop_cons_cases anchor P ok ev rest c lr with
      heq | ⟨ts, h1, h2, h3, h4, h5, h6, heq⟩
    · rw [heq]
      exact ih c lr
    · rw [heq]
      refine List.chain'_cons'.mpr ⟨fun y hy => ?_, ih (c + 1) _⟩
      exact reconcileLoop_rel_lb anchor P ok rest (c + 1) _ y
        (List.mem_of_mem_head? hy)

/-- The events of the loop's output form a sublist of the processed
events. -/
theorem reconcileLoop_sublist (anchor : ℚ) (P : RecParams)
    (ok : Ev → ℚ → Bool) :
    ∀ (evs : List Ev) (c : ℕ) (lr : Option ℚ),
      ((reconcileLoop anchor P ok evs c lr).map OutEv.ev).Sublist evs := by
  intro evs
  induction evs with
  | nil => intro c lr; simp [reconcileLoop]
  | cons ev rest ih =>
    intro c lr
    rcases reconcileLoop_cons_cases anchor P ok ev rest c lr with
      heq | ⟨ts, h1, h2, h3, h4, h5, h6, heq⟩
    · rw [heq]
      exact (ih c lr).cons ev
    · rw [heq]
      simp only [List.map_cons]
      exact (ih (c + 1) _).cons₂ ev

/-- The sequence counters of the loop's output are consecutive from the
starting counter. -/
theorem reconcileLoop_seq_range (anchor : ℚ) (P : RecParams)
    (ok : Ev → ℚ → Bool) :
    ∀ (evs : List Ev) (c : ℕ) (lr : Option ℚ),
      (reconcileLoop anchor P ok evs c lr).map (fun o => o.frame.seq)
        = List.range' c (reconcileLoop anchor P ok evs c lr).length := by
  intro evs
  induction evs with
  | nil => intro c lr; simp [reconcileLoop]
  | cons ev rest ih =>
    intro c lr
    rcases reconcileLoop_cons_cases anchor P ok ev rest c lr with
      heq | ⟨ts, h1, h2, h3, h4, h5, h6, heq⟩
    · rw [heq]
      exact ih c lr
    · rw [heq]
      simp only [List.map_cons, List.length_cons, List.range'_succ]
      rw [ih (c + 1) _]

/-! ## Claim theorems -/

/-- C6: for every item and every queue state, sink `put` returns without
blocking — it is a total function whose `queue.Full` branch is caught
inside `put`, so no exception reaches the producer; when the queue is at
capacity the incoming (newest) item is dropped and the state is
unchanged, and below capacity the item is appended. -/
theorem sink_put_nonblocking (p : LogPump) (line : PyStr)
    (w : JsonlWriter) (obj : Ev) :
    (p.q.maxsize ≤ p.q.items.length → p.put line = p) ∧
    (p.q.items.length < p.q.maxsize → (p.put line).q.items = p.q.items ++ [line]) ∧
    (w.q.maxsize ≤ w.q.items.length → w.put obj = w) ∧
    (w.q.items.length < w.q.maxsize → (w.put obj).q.items = w.q.items ++ [obj]) := by
  refine ⟨fun h => ?_, fun h => ?_, fun h => ?_, fun h => ?_⟩
  · have hn : ¬ p.q.items.length < p.q.maxsize := Nat.not_lt.mpr h
    simp [LogPump.put, BQueue.put, BQueue.put_nowait, hn]
  · simp [LogPump.put, BQueue.put, BQueue.put_nowait, h]
  · have hn : ¬ w.q.items.length < w.q.maxsize := Nat.not_lt.mpr h
    simp [JsonlWriter.put, BQueue.put, BQueue.put_nowait, hn]
  · simp [JsonlWriter.put, BQueue.put, BQueue.put_nowait, h]

/-- Witness for C6: a capacity-1 pump and writer both at capacity drop
the incoming item and keep their state. -/
theorem sink_put_nonblocking_witness :
    LogPump.put ⟨⟨[[]], 1⟩⟩ [] = ⟨⟨[[]], 1⟩⟩ ∧
    JsonlWriter.put ⟨[], [], ⟨[[]], 1⟩⟩ [] = ⟨[], [], ⟨[[]], 1⟩⟩ := by
  have h := sink_put_nonblocking ⟨⟨[[]], 1⟩⟩ [] ⟨[], [], ⟨[[]], 1⟩⟩ []
  exact ⟨h.1 (by decide), h.2.2.1 (by decide)⟩

/-- C7: when the encoder log holds no `start:` marker, the run fails
with the anchor error before the event loop, producing an `error` result
instead of any (even empty) output list — no record is written. -/
theorem no_start_marker_aborts (log : List Char) (prefer : Prefer)
    (wall_now host_now : ℚ) (P : RecParams) (extractOk : Ev → ℚ → Bool)
    (events : List Ev) (h : extract_ffmpeg_start_ts log prefer = none) :
    mainReconcile log prefer wall_now host_now P extractOk events
      = Except.error noStartMsg := by
  unfold mainReconcile
  rw [h]

/-- Witness for C7: a markerless log aborts the run. -/
theorem no_start_marker_aborts_witness :
    mainReconcile noMarkerLog Prefer.last 0 0 P0 okAll []
      = Except.error noStartMsg :=
  no_start_marker_aborts noMarkerLog Prefer.last 0 0 P0 okAll [] (by decide)

/-- C8: anchor computation is idempotent.  Marker extraction is a pure
function of the log text and policy, and the clock-sample conversion
yields the same anchor whenever the two query instants agree on
`wall_now - host_now` (both clocks having advanced equally between
repeated computations, the exact counterpart of agreement within
floating-point tolerance). -/
theorem anchor_computation_idempotent (text : List Char) (prefer : Prefer)
    (w1 h1 w2 h2 : ℚ) (hclk : w1 - h1 = w2 - h2) :
    (extract_ffmpeg_start_ts text prefer).map (host_seconds_to_epoch w1 h1)
      = (extract_ffmpeg_start_ts text prefer).map (host_seconds_to_epoch w2 h2) := by
  cases hx : extract_ffmpeg_start_ts text prefer with
  | none => rfl
  | some m => simp [host_seconds_to_epoch, hclk]

/-- Witness for C8: two query instants with equal clock offset give the
same anchor for the sample log. -/
theorem anchor_computation_idempotent_witness :
    (extract_ffmpeg_start_ts sampleLog Prefer.last).map (host_seconds_to_epoch 100 1)
      = (extract_ffmpeg_start_ts sampleLog Prefer.last).map
          (host_seconds_to_epoch 200 101) :=
  anchor_computation_idempotent sampleLog Prefer.last 100 1 200 101 (by norm_num)

/-- C9: an accepted `type`/`type_commit` event with a string value has
its persisted value capped at 120 characters: kept verbatim when no
longer than 120, else replaced by its first 117 characters followed by
the ellipsis character. -/
theorem wire_redact_value_spec (obj : Ev) (t v : PyStr)
    (ht : obj.lookup typeKey = some (JsonVal.str t))
    (htt : t = ("type").toList ∨ t = ("type_commit").toList)
    (hv : obj.lookup valueKey = some (JsonVal.str v)) :
    (wire_redact obj).lookup valueKey = some (JsonVal.str (redact_value v)) ∧
    (redact_value v).length ≤ 120 ∧
    (v.length ≤ 120 → redact_value v = v) ∧
    (120 < v.length → redact_value v = v.take 117 ++ [Char.ofNat 0x2026]) := by
  refine ⟨?_, ?_, fun h => ?_, fun h => ?_⟩
  · unfold wire_redact
    simp only [ht, hv]
    rw [if_pos htt]
    exact dictSet_lookup obj valueKey _ (by rw [hv]; rfl)
  · unfold redact_value
    split
    · next h => exact h
    · next h =>
      have h2 : 117 ≤ v.length := by omega
      simp [List.length_take, Nat.min_eq_left h2]
  · unfold redact_value
    rw [if_pos h]
  · unfold redact_value
    rw [if_neg (Nat.not_le.mpr h)]

/-- Witness for C9: a 121-character typed value is persisted as 117
characters plus the ellipsis, 118 characters in total. -/
theorem wire_redact_value_spec_witness :
    (wire_redact typedEv).lookup valueKey
      = some (JsonVal.str (redact_value longValue)) ∧
    (redact_value longValue).length ≤ 120 := by
  have h := wire_redact_value_spec typedEv (("type").toList) longValue
    (by decide) (Or.inl rfl) (by decide)
  exact ⟨h.1, h.2.1⟩

/-- Reconciling the single event `ev0` against anchor 0 with parameters
`P0` and an always-succeeding extraction yields exactly `out0`. -/
theorem loop_eval0 : reconcileLoop 0 P0 okAll [ev0] 1 none = [out0] := by
  have h1 : sanitize_ts (ev0.lookup tsKey) = some 1 := by decide
  have hms : pyInt ((1 : ℚ) * 1000) = 1000 := by
    rw [show ((1 : ℚ) * 1000) = ((1000 : ℤ) : ℚ) by norm_num]
    exact pyInt_intCast 1000
  have hofs : P0.offset_s = 0 := by
    norm_num [RecParams.offset_s, P0]
  simp only [reconcileLoop, h1, hofs, hms]
  norm_num [typePasses, P0, gapSkip, okAll, out0, ev0, evTypeOf, typeKey,
    tsKey, List.lookup]

/-- C2: every record that frame reconciliation retains had a numeric
`ts` at or after the correlation anchor and a type passing the optional
include-list, and its relative time is `(ts - anchor) + user_offset`,
which is non-negative (events with a negative value were discarded). -/
theorem reconcile_retention_conditions (anchor : ℚ) (P : RecParams)
    (ok : Ev → ℚ → Bool) (evs : List Ev) (o : OutEv)
    (ho : o ∈ reconcileLoop anchor P ok evs 1 none) :
    ∃ ts, sanitize_ts (o.ev.lookup tsKey) = some ts ∧ anchor ≤ ts ∧
      typePasses P.include_types (evTypeOf o.ev) = true ∧
      o.rel_t = (ts - anchor) + P.offset_s ∧ 0 ≤ o.rel_t := by
  rcases reconcileLoop_mem_conditions anchor P ok evs 1 none o ho with
    ⟨ts, a, b, c, d, e, _⟩
  exact ⟨ts, a, b, c, d, e⟩

/-- Witness for C2: the retained record `out0` exhibits the retention
conditions at anchor 0. -/
theorem reconcile_retention_conditions_witness :
    ∃ ts, sanitize_ts (out0.ev.lookup tsKey) = some ts ∧ (0 : ℚ) ≤ ts ∧
      typePasses P0.include_types (evTypeOf out0.ev) = true ∧
      out0.rel_t = (ts - 0) + P0.offset_s ∧ 0 ≤ out0.rel_t :=
  reconcile_retention_conditions 0 P0 okAll [ev0] out0
    (by rw [loop_eval0]; exact List.mem_singleton.mpr rfl)

/-- C3: consecutively retained reconciled events are at least the
configured minimum gap apart in relative time (`min_gap_s` is the
configured `min_gap_ms` expressed in seconds); a candidate closer than
the gap to the last retained event was skipped by the loop. -/
theorem reconcile_min_gap_invariant (anchor : ℚ) (P : RecParams)
    (ok : Ev → ℚ → Bool) (evs : List Ev) :
    List.Chain' (fun a b : OutEv => P.min_gap_s ≤ b.rel_t - a.rel_t)
      (reconcileLoop anchor P ok evs 1 none) :=
  reconcileLoop_chain_gap anchor P ok evs 1 none

/-- C4: the reconciled output originates record-for-record from the
input log as an ordered subsequence — no duplication, no reordering. -/
theorem reconcile_output_sublist (anchor : ℚ) (P : RecParams)
    (ok : Ev → ℚ → Bool) (evs : List Ev) :
    ((reconcileLoop anchor P ok evs 1 none).map OutEv.ev).Sublist evs :=
  reconcileLoop_sublist anchor P ok evs 1 none

/-- C10: the records actually written carry consecutive sequence
counters starting at 1 (rendered `000001`), and an event whose frame
extraction fails is skipped without touching the counter or the
last-retained-time tracker — the loop continues exactly as if the
candidate had not been there. -/
theorem reconcile_skip_semantics (anchor : ℚ) (P : RecParams)
    (ok : Ev → ℚ → Bool) (evs : List Ev) :
    ((reconcileLoop anchor P ok evs 1 none).map (fun o => o.frame.seq)
        = List.range' 1 (reconcileLoop anchor P ok evs 1 none).length) ∧
    (∀ (ev : Ev) (rest : List Ev) (c : ℕ) (lr : Option ℚ) (ts : ℚ),
      sanitize_ts (ev.lookup tsKey) = some ts → ¬ ts < anchor →
      typePasses P.include_types (evTypeOf ev) = true →
      ¬ (ts - anchor) + P.offset_s < 0 →
      gapSkip lr ((ts - anchor) + P.offset_s) P.min_gap_s = false →
      ok ev ((ts - anchor) + P.offset_s) = false →
      reconcileLoop anchor P ok (ev :: rest) c lr
        = reconcileLoop anchor P ok rest c lr) := by
  refine ⟨reconcileLoop_seq_range anchor P ok evs 1 none, ?_⟩
  intro ev rest c lr ts h1 h2 h3 h4 h5 h6
  have h3' : ¬ typePasses P.include_types (evTypeOf ev) = false := by
    simp [h3]
  have h5' : ¬ gapSkip lr ((ts - anchor) + P.offset_s) P.min_gap_s = true := by
    simp [h5]
  have h6' : ¬ ok ev ((ts - anchor) + P.offset_s) = true := by
    simp [h6]
  simp only [reconcileLoop, h1, if_neg h2, if_neg h3', if_neg h4, if_neg h5',
    if_neg h6']

/-- Witness for C10: with an always-failing extraction, the lone
candidate `ev0` (which passes every guard) is skipped and the loop state
is exactly the state for the remaining (empty) input. -/
theorem reconcile_skip_semantics_witness :
    reconcileLoop 0 P0 okFail [ev0] 1 none
      = reconcileLoop 0 P0 okFail [] 1 none := by
  have h := (reconcile_skip_semantics 0 P0 okFail []).2 ev0 [] 1 none 1
    (by decide) (by norm_num) rfl
    (by norm_num [RecParams.offset_s, P0]) rfl rfl
  exact h

/-- C1: the anchor conversion computes `wall_now - host_now + marker`
for every marker value; in the spec's scenario — an encoder log carrying
`start: 12.345000` once, `prefer = last`, `wall_now = 1700000100.0`,
`host_now = 12.5` — the anchor is exactly `1700000099.845`. -/
theorem host_seconds_to_epoch_spec (wall_now host_now m : ℚ) :
    host_seconds_to_epoch wall_now host_now m = wall_now - host_now + m ∧
    extract_ffmpeg_start_ts sampleLog Prefer.last = some (12345 / 1000) ∧
    host_seconds_to_epoch 1700000100 (25 / 2) (12345 / 1000)
      = 1700000099845 / 1000 := by
  refine ⟨rfl, ?_, by unfold host_seconds_to_epoch; norm_num⟩
  have hraw : findMarkerDigitsFuel sampleLog.length sampleLog false
      = [(['1', '2'], ['3', '4', '5', '0', '0', '0'])] := by decide
  have h1 : digitsToNat ['1', '2'] = 12 := by decide
  have h2 : digitsToNat ['3', '4', '5', '0', '0', '0'] = 345000 := by decide
  unfold extract_ffmpeg_start_ts findMarkers
  rw [hraw]
  simp only [List.map_cons, List.map_nil, ratOfDigits, h1, h2]
  norm_num

/-- The value stored for `ts` by `_emit_event`'s normalization:
unchanged at or below `1e10`, else `round(ts / 1000.0, 6)`. -/
theorem emit_event_normalize_lookup (obj : Ev) (q : ℚ)
    (h : obj.lookup tsKey = some (JsonVal.num q)) :
    (q ≤ 10000000000 → emit_event_normalize obj = obj) ∧
    (10000000000 < q →
      (emit_event_normalize obj).lookup tsKey
        = some (JsonVal.num (pyRound6 (q / 1000)))) := by
  constructor
  · intro hle
    unfold emit_event_normalize
    simp only [h]
    rw [if_neg (not_lt.mpr hle)]
  · intro hgt
    unfold emit_event_normalize
    simp only [h]
    rw [if_pos hgt]
    exact dictSet_lookup obj tsKey _ (by rw [h]; rfl)

/-- Counterexample for C5: for the epoch-millisecond timestamp
`20000000000000.001953125` (ms value `2e13 + 1000/512`, here written as
the seconds-level rational `2e10 + 1/512`), the stored value is not
`ts / 1000` — the source stores `round(ts / 1000.0, 6)`, which differs
from the exact quotient in the seventh decimal place. -/
theorem emit_event_div_not_exact_cex :
    ¬ ((Recorder_emit_event c5ev).1.lookup tsKey
        = some (JsonVal.num ((20000000000 + 1 / 512) / 1000))) := by
  have hl : c5ev.lookup tsKey
      = some (JsonVal.num (20000000000 + 1 / 512)) := rfl
  have hst := (emit_event_normalize_lookup c5ev _ hl).2 (by norm_num)
  have hpair : (Recorder_emit_event c5ev).1 = emit_event_normalize c5ev := rfl
  rw [hpair, hst]
  simp only [Option.some.injEq, JsonVal.num.injEq]
  have harg : ((20000000000 + 1 / 512 : ℚ) / 1000) * 1000000
      = 1280000000000125 / 64 := by norm_num
  have hfl : ⌊(1280000000000125 / 64 : ℚ)⌋ = 20000000000001 := by
    rw [Int.floor_eq_iff]
    constructor
    · push_cast
      norm_num
    · push_cast
      norm_num
  have hr : (1280000000000125 / 64 : ℚ) - ((20000000000001 : ℤ) : ℚ)
      = 61 / 64 := by
    push_cast
    norm_num
  have hrnd : roundHalfEven ((1280000000000125 : ℚ) / 64) = 20000000000002 := by
    unfold roundHalfEven
    rw [hfl, hr]
    rw [if_neg (by norm_num), if_pos (by norm_num)]
    norm_num
  have hval : pyRound6 ((20000000000 + 1 / 512 : ℚ) / 1000)
      = 10000000000001 / 500000 := by
    unfold pyRound6
    rw [harg, hrnd]
    push_cast
    norm_num
  rw [hval]
  norm_num

/-- C5 amended: before an event reaches either sink, a numeric `ts` at
or below `1e10` is stored unchanged, and a numeric `ts` above `1e10`
(epoch milliseconds) is stored as `ts / 1000` rounded to six decimal
places (Python's `round(ts / 1000.0, 6)`); both sinks receive the same
normalized record, and input `1700000000000` is stored as
`1700000000.0`. -/
theorem emit_event_ts_normalization (obj : Ev) (q : ℚ)
    (h : obj.lookup tsKey = some (JsonVal.num q)) :
    (Recorder_emit_event obj).2 = (Recorder_emit_event obj).1 ∧
    (q ≤ 10000000000 → (Recorder_emit_event obj).1 = obj) ∧
    (10000000000 < q →
      (Recorder_emit_event obj).1.lookup tsKey
        = some (JsonVal.num (pyRound6 (q / 1000)))) := by
  have hh := emit_event_normalize_lookup obj q h
  exact ⟨rfl, fun hle => hh.1 hle, fun hgt => hh.2 hgt⟩

/-- Witness for C5: the spec's scenario input `1700000000000` is stored
as exactly `1700000000`. -/
theorem emit_event_ts_normalization_witness :
    (Recorder_emit_event [(tsKey, JsonVal.num 1700000000000)]).1.lookup tsKey
      = some (JsonVal.num 1700000000) := by
  have h := (emit_event_ts_normalization [(tsKey, JsonVal.num 1700000000000)]
    1700000000000 rfl).2.2 (by norm_num)
  rw [h]
  have harg : ((1700000000000 : ℚ) / 1000) * 1000000
      = ((1700000000000000 : ℤ) : ℚ) := by norm_num
  have hval : pyRound6 ((1700000000000 : ℚ) / 1000) = 1700000000 := by
    unfold pyRound6
    rw [harg, roundHalfEven_intCast]
    push_cast
    norm_num
  rw [hval]

end WebActionCapture
